import Mathlib

/-!
# Verification of the email-scraping pipeline

Shallow embedding of the core logic of the repository (email extraction and
validation from `email_extractor.py`, the static-fetch retry loop and internal
link exploration from `scraper.py`, the pipeline orchestration and summary from
`main.py`, social-link classification from `social_scraper.py`, and proxy
rotation from `proxy_handler.py`), together with proofs and refutations of the
testable properties of the specification.

Strings are modelled as `List Char` (named `Str`), matching the Python character
sequences; regular-expression checks from the source are translated into
executable character-level scanners.
-/

namespace EmailScraping

/-- Strings are modelled as lists of characters. -/
abbrev Str := List Char

/-- Python `str.lower()` (ASCII case folding, as used by the extractor). -/
def lowerStr (s : Str) : Str := s.map Char.toLower

/-- Python regex `\s` / `str.strip()` whitespace: space, tab, LF, CR, FF, VT. -/
def isSpaceChar (c : Char) : Bool :=
  c = ' ' || c = '\t' || c = '\n' || c = '\r' || c = '\x0b' || c = '\x0c'

/-- Python `str.strip()`: drop whitespace from both ends. -/
def trimStr (s : Str) : Str :=
  ((s.dropWhile isSpaceChar).reverse.dropWhile isSpaceChar).reverse

/-- Character class `[A-Za-z0-9._%+-]` (local part of the email regex). -/
def isLocalChar (c : Char) : Bool :=
  c.isAlpha || c.isDigit || c = '.' || c = '_' || c = '%' || c = '+' || c = '-'

/-- Character class `[A-Za-z0-9.-]` (domain part of the email regex). -/
def isDomainChar (c : Char) : Bool :=
  c.isAlpha || c.isDigit || c = '.' || c = '-'

/-- Character class `[A-Z|a-z]` (the TLD class of the email regex; note the
source pattern literally includes `|` inside the class). -/
def isTldChar (c : Char) : Bool := c.isAlpha || c = '|'

/-- Regex word characters `\w = [A-Za-z0-9_]`, used for `\b` boundaries. -/
def isWordChar (c : Char) : Bool := c.isAlpha || c.isDigit || c = '_'

/-- Whether `pat` occurs as a contiguous subsequence of `s`
(Python `pat in s` / an unanchored `re.search` of a literal pattern). -/
def containsSeq (pat : Str) : Str → Bool
  | [] => pat.isEmpty
  | c :: rest => pat.isPrefixOf (c :: rest) || containsSeq pat rest

/-- The seven false-positive patterns of `EmailExtractor.__init__`
(`example\.com$`, `test\.com$`, `domain\.com$`, `email\.com$`,
`user@localhost`, `admin@localhost`, `root@localhost`), each checked with
`re.search`: the first four are end-anchored literal suffixes, the last three
unanchored literal substrings.  All are case-sensitive. -/
def falsePositiveHit (e : Str) : Bool :=
  List.isSuffixOf "example.com".data e ||
  List.isSuffixOf "test.com".data e ||
  List.isSuffixOf "domain.com".data e ||
  List.isSuffixOf "email.com".data e ||
  containsSeq "user@localhost".data e ||
  containsSeq "admin@localhost".data e ||
  containsSeq "root@localhost".data e

/-- Matcher for the tail `[A-Za-z0-9.-]+\.[A-Z|a-z]{2,}$` of the anchored
validation regex in `_is_valid_email`: some split point `j ≥ 1` has a literal
dot, everything before it in the domain class and the whole remainder (length
at least 2) in the TLD class. -/
def basicFormatTail (r : Str) : Bool :=
  (List.range r.length).any fun j =>
    decide (1 ≤ j) && (r.getD j ' ' = '.') && (r.take j).all isDomainChar &&
      decide (2 ≤ (r.drop (j + 1)).length) && (r.drop (j + 1)).all isTldChar

/-- The anchored re-validation of `_is_valid_email`: `re.match` with the
pattern `^[A-Za-z0-9._%+-]+@[A-Za-z0-9.-]+\.[A-Z|a-z]{2,}$`. -/
def basicFormatOk (e : Str) : Bool :=
  let lp := e.takeWhile (fun c => c ≠ '@')
  !lp.isEmpty && lp.all isLocalChar &&
    (match e.drop lp.length with
     | c :: r => decide (c = '@') && basicFormatTail r
     | [] => false)

/-- Python `email.split('@')[1] if '@' in email else ''`: the segment between
the first `@` and the next `@` (or the end). -/
def domainOf (e : Str) : Str :=
  ((e.dropWhile (fun c => c ≠ '@')).drop 1).takeWhile (fun c => c ≠ '@')

/-- The trusted provider allow-list of `EmailExtractor.__init__`. -/
def trustedDomains : List Str :=
  ["gmail.com".data, "yahoo.com".data, "hotmail.com".data, "outlook.com".data,
   "aol.com".data, "icloud.com".data, "protonmail.com".data, "zoho.com".data]

/-- Simplified `urlparse(u).netloc`: the segment after the first `://` up to
the next `/`, `?` or `#`; empty when the URL has no `://`. -/
def urlNetloc : Str → Str
  | [] => []
  | c :: rest =>
    if List.isPrefixOf "://".data (c :: rest) then
      ((c :: rest).drop 3).takeWhile (fun d => d ≠ '/' && d ≠ '?' && d ≠ '#')
    else urlNetloc rest

/-- Lines 195–203 of `_is_valid_email`: the source-URL affinity check
(`domain == url_domain or domain.endswith('.' + url_domain)`). -/
def sourceDomainMatches (sourceUrl : Option Str) (domain : Str) : Bool :=
  match sourceUrl with
  | none => false
  | some su =>
    if su.isEmpty then false
    else
      let ud := lowerStr (urlNetloc su)
      domain == ud || List.isSuffixOf ('.' :: ud) domain

/-- `EmailExtractor._is_valid_email`: minimum length 5, no false-positive
pattern, the anchored format regex, then the trusted-domain and source-domain
shortcuts — which, like the permissive default that follows them, all return
`True` (the stricter `_has_suspicious_patterns` check sits after an
unconditional `return True` and is unreachable). -/
def isValidEmail (email : Str) (sourceUrl : Option Str) : Bool :=
  if email.isEmpty || email.length < 5 then false
  else if falsePositiveHit email then false
  else if !basicFormatOk email then false
  else
    let domain := if email.contains '@' then domainOf email else []
    if decide (domain ∈ trustedDomains) then true
    else if sourceDomainMatches sourceUrl domain then true
    else true

/-- Search `j = n-1, n-2, …, 0` for the first `j` with `f j = some _`
(models regex backtracking, which prefers the longest greedy consumption). -/
def findSomeDesc (n : Nat) (f : Nat → Option α) : Option α :=
  (List.range n).reverse.findSome? f

/-- Word-boundary test after the TLD run: `\b` holds between the last matched
character and the following one (end of input counts as a non-word side). -/
def tldBoundaryOk (r : Str) (j k : Nat) (tl : Str) : Bool :=
  let last := tl.getD (k - 1) ' '
  let nxt := (r.drop (j + 1 + k)).head?
  isWordChar last != (match nxt with | some c => isWordChar c | none => false)

/-- Match `[A-Za-z0-9.-]+\.[A-Z|a-z]{2,}\b` at the start of `r`, returning the
number of characters consumed: the greedy domain run backtracks to the largest
split `j` with a literal dot, then the greedy TLD run backtracks to the largest
length `k ≥ 2` whose end satisfies `\b`. -/
def tryMatchTail (r : Str) : Option Nat :=
  let dlen := (r.takeWhile isDomainChar).length
  findSomeDesc dlen fun j =>
    if decide (1 ≤ j) && (r.getD j ' ' = '.') then
      let tl := (r.drop (j + 1)).takeWhile isTldChar
      match findSomeDesc (tl.length + 1) (fun k =>
        if decide (2 ≤ k) && tldBoundaryOk r j k tl then some k else none) with
      | some k => some (j + 1 + k)
      | none => none
    else none

/-- Try to match the extraction regex
`\b[A-Za-z0-9._%+-]+@[A-Za-z0-9.-]+\.[A-Z|a-z]{2,}\b` at the start of `s`
(`prevIsWord` records whether the character before `s` is a word character,
for the leading `\b`).  Returns `some n` for a match of length `n + 1`. -/
def tryMatchAt (prevIsWord : Bool) (s : Str) : Option Nat :=
  let lp := s.takeWhile isLocalChar
  if lp.isEmpty then none
  else if prevIsWord == isWordChar (s.getD 0 ' ') then none
  else
    match s.drop lp.length with
    | '@' :: r =>
      match tryMatchTail r with
      | some t => some (lp.length + t)
      | none => none
    | _ => none

/-- Left-to-right non-overlapping scan of `re.findall` with the extraction
pattern: at each position try a match; on success emit it and resume after its
end, otherwise advance one character.  The first argument is step fuel
(structural recursion so the kernel can evaluate it); every step consumes at
least one character, so fuel equal to the input length never runs out. -/
def emailFindallAux : Nat → Bool → Str → List Str
  | _, _, [] => []
  | 0, _, _ :: _ => []
  | fuel + 1, prev, c :: rest =>
    match tryMatchAt prev (c :: rest) with
    | some n =>
      let m := (c :: rest).take (n + 1)
      m :: emailFindallAux fuel (isWordChar (m.getD n ' ')) (rest.drop n)
    | none => emailFindallAux fuel (isWordChar c) rest

/-- `self.email_pattern.findall(text)`. -/
def emailFindall (text : Str) : List Str := emailFindallAux text.length false text

/-- `list(dict.fromkeys(xs))`: de-duplicate keeping the first occurrence. -/
def dedupKeepFirst (seen : List Str) : List Str → List Str
  | [] => []
  | e :: rest =>
    if e ∈ seen then dedupKeepFirst seen rest
    else e :: dedupKeepFirst (e :: seen) rest

/-- `EmailExtractor.extract_emails_from_text`: find all regex matches,
lower-case and strip each, keep those passing `_is_valid_email`, then
de-duplicate preserving the order of first occurrence. -/
def extractEmailsFromText (text : Str) (sourceUrl : Option Str) : List Str :=
  if text.isEmpty then []
  else
    dedupKeepFirst []
      (((emailFindall text).map fun m => trimStr (lowerStr m)).filter
        fun e => isValidEmail e sourceUrl)

/-- A parsed HTML document as consumed by `extract_emails_from_html`:
the visible text (`soup.get_text()`), the `href` values of all `<a href=…>`
tags in document order, and the string-valued attribute `(name, value)` pairs
of all tags in document order. -/
structure HtmlDoc where
  text : Str
  anchorHrefs : List Str
  attrPairs : List (Str × Str)
deriving DecidableEq

/-- `href.replace(mailto-scheme, empty)`: remove every (non-overlapping, leftmost)
occurrence of `mailto:`.  Structural fuel recursion; every step consumes at
least one character, so fuel equal to the input length never runs out. -/
def removeMailtoAux : Nat → Str → Str
  | _, [] => []
  | 0, s => s
  | fuel + 1, c :: rest =>
    if List.isPrefixOf "mailto:".data (c :: rest) then
      removeMailtoAux fuel (rest.drop 6)
    else c :: removeMailtoAux fuel rest

/-- The full mailto-scheme removal of the source. -/
def removeMailto (s : Str) : Str := removeMailtoAux s.length s

/-- The address a `mailto:` href yields in `_extract_mailto_emails`:
strip the mailto scheme, drop any query suffix after `?`, and strip whitespace. -/
def mailtoAddress (href : Str) : Str :=
  trimStr ((removeMailto href).takeWhile fun c => c ≠ '?')

/-- `EmailExtractor._extract_mailto_emails`: for each `<a href=…>` whose href
starts with `mailto:`, strip the scheme and query, validate the address
*before* lower-casing, and emit the lower-cased address tagged
`mailto_link`. -/
def extractMailtoEmails (doc : HtmlDoc) (baseUrl : Option Str) : List (Str × Str) :=
  doc.anchorHrefs.filterMap fun href =>
    if List.isPrefixOf "mailto:".data href then
      let email := mailtoAddress href
      if isValidEmail email baseUrl then some (lowerStr email, "mailto_link".data)
      else none
    else none

/-- `EmailExtractor._extract_data_attribute_emails`: every string-valued
attribute whose name contains `data-` is scanned with the text extractor and
its finds are tagged `data_attribute_<name>`. -/
def extractDataAttributeEmails (doc : HtmlDoc) (baseUrl : Option Str) :
    List (Str × Str) :=
  (doc.attrPairs.map fun p =>
    if containsSeq "data-".data p.1 then
      (extractEmailsFromText p.2 baseUrl).map fun e =>
        (e, "data_attribute_".data ++ p.1)
    else []).flatten

/-- The final de-duplication of `extract_emails_from_html`: keep the first
`(email, context)` pair for each email. -/
def dedupByEmail (seen : List Str) : List (Str × Str) → List (Str × Str)
  | [] => []
  | p :: rest =>
    if p.1 ∈ seen then dedupByEmail seen rest
    else p :: dedupByEmail (p.1 :: seen) rest

/-- `EmailExtractor.extract_emails_from_html`: text-content finds, then
`mailto:` finds, then data-attribute finds, de-duplicated by email keeping
first occurrences.  (The `if not html_content: return []` guard corresponds to
the empty document, on which this body also returns `[]`.) -/
def extractEmailsFromHtml (doc : HtmlDoc) (baseUrl : Option Str) :
    List (Str × Str) :=
  dedupByEmail []
    (((extractEmailsFromText doc.text baseUrl).map fun e =>
        (e, "text_content".data)) ++
      extractMailtoEmails doc baseUrl ++
      extractDataAttributeEmails doc baseUrl)

/-- The placeholder / localhost domains of the claim: `example.com`,
`test.com`, `domain.com`, `email.com`, and `localhost`. -/
def placeholderDomains : List Str :=
  ["example.com".data, "test.com".data, "domain.com".data, "email.com".data]

/-- An email whose domain (the segment after the first `@`) is one of the
placeholder domains or is `localhost`.  Extractor output is lower-cased by
construction, so the literal comparison here is the case-insensitive check of
the claim. -/
def isPlaceholderEmail (e : Str) : Bool :=
  decide (domainOf e ∈ placeholderDomains) || domainOf e == "localhost".data

/-! ## Helper lemmas about the extractor -/

theorem mem_of_mem_dedupKeepFirst {e : Str} :
    ∀ {seen l : List Str}, e ∈ dedupKeepFirst seen l → e ∈ l := by
  intro seen l
  induction l generalizing seen with
  | nil => simp [dedupKeepFirst]
  | cons a rest ih =>
    intro h
    unfold dedupKeepFirst at h
    split at h
    · exact List.mem_cons_of_mem a (ih h)
    · rcases List.mem_cons.mp h with h | h
      · exact h ▸ List.mem_cons_self a rest
      · exact List.mem_cons_of_mem a (ih h)

theorem mem_of_mem_dedupByEmail {p : Str × Str} :
    ∀ {seen : List Str} {l : List (Str × Str)}, p ∈ dedupByEmail seen l → p ∈ l := by
  intro seen l
  induction l generalizing seen with
  | nil => simp [dedupByEmail]
  | cons a rest ih =>
    intro h
    unfold dedupByEmail at h
    split at h
    · exact List.mem_cons_of_mem a (ih h)
    · rcases List.mem_cons.mp h with h | h
      · exact h ▸ List.mem_cons_self a rest
      · exact List.mem_cons_of_mem a (ih h)

theorem basicFormatTail_elim {r : Str} (h : basicFormatTail r = true) :
    '@' ∉ r ∧ '.' ∈ r := by
  unfold basicFormatTail at h
  obtain ⟨j, hjr, hj⟩ := List.any_eq_true.mp h
  have hjlt : j < r.length := List.mem_range.mp hjr
  simp only [Bool.and_eq_true, decide_eq_true_eq] at hj
  obtain ⟨⟨⟨⟨hj1, hdot⟩, hdomchars⟩, hlen2⟩, htldchars⟩ := hj
  rw [List.getD_eq_getElem r ' ' hjlt] at hdot
  have hdotmem : '.' ∈ r := hdot ▸ List.getElem_mem hjlt
  refine ⟨?_, hdotmem⟩
  intro hat
  rw [← List.take_append_drop j r] at hat
  rcases List.mem_append.mp hat with hat | hat
  · have := List.all_eq_true.mp hdomchars _ hat
    simp [isDomainChar] at this
  · rw [List.drop_eq_getElem_cons hjlt] at hat
    rcases List.mem_cons.mp hat with hat | hat
    · rw [hdot] at hat
      exact absurd hat (by decide)
    · have := List.all_eq_true.mp htldchars _ hat
      simp [isTldChar] at this

theorem drop_length_takeWhile_eq_dropWhile (p : Char → Bool) (l : Str) :
    l.drop (l.takeWhile p).length = l.dropWhile p := by
  induction l with
  | nil => rfl
  | cons a rest ih =>
    by_cases h : p a
    · simp [List.takeWhile_cons, List.dropWhile_cons, h, ih]
    · simp [List.takeWhile_cons, List.dropWhile_cons, h]

theorem basicFormatOk_elim {e : Str} (h : basicFormatOk e = true) :
    ∃ lp r, e = lp ++ '@' :: r ∧ domainOf e = r ∧ basicFormatTail r = true := by
  unfold basicFormatOk at h
  simp only [Bool.and_eq_true] at h
  obtain ⟨⟨hne, hlocal⟩, hmatch⟩ := h
  rcases hd : e.drop (e.takeWhile (fun c => c ≠ '@')).length with _ | ⟨c, r⟩
  · rw [hd] at hmatch; exact absurd hmatch (by simp)
  · rw [hd] at hmatch
    simp only [Bool.and_eq_true, decide_eq_true_eq] at hmatch
    obtain ⟨hc, htail⟩ := hmatch
    subst hc
    have hdw : e.dropWhile (fun c => c ≠ '@') = '@' :: r := by
      rw [← drop_length_takeWhile_eq_dropWhile (fun c => c ≠ '@') e]
      exact hd
    have hsplit : e = e.takeWhile (fun c => c ≠ '@') ++ ('@' :: r) := by
      conv_lhs => rw [← List.takeWhile_append_dropWhile (p := fun c => c ≠ '@') (l := e)]
      rw [hdw]
    refine ⟨_, r, hsplit, ?_, htail⟩
    unfold domainOf
    rw [hdw]
    simp only [List.drop_succ_cons, List.drop_zero]
    refine List.takeWhile_eq_self_iff.mpr fun x hx => ?_
    simp only [decide_eq_true_eq]
    intro hxe
    exact (basicFormatTail_elim htail).1 (hxe ▸ hx)

/-- Every address accepted by `_is_valid_email` has a non-placeholder,
non-localhost domain: the end-anchored false-positive patterns reject the four
placeholder domains, and the anchored format regex requires a dot after the
`@`, which rules out `localhost`. -/
theorem isValid_not_placeholder {e : Str} {su : Option Str}
    (h : isValidEmail e su = true) : isPlaceholderEmail e = false := by
  have key : falsePositiveHit e = false ∧ basicFormatOk e = true := by
    unfold isValidEmail at h
    by_cases h1 : (e.isEmpty || decide (e.length < 5)) = true
    · simp [h1] at h
    · cases hfp : falsePositiveHit e
      · cases hbf : basicFormatOk e
        · simp [h1, hfp, hbf] at h
        · exact ⟨rfl, rfl⟩
      · simp [h1, hfp] at h
  obtain ⟨hfp, hbf⟩ := key
  obtain ⟨lp, r, he, hdom, htail⟩ := basicFormatOk_elim hbf
  obtain ⟨hat, hdot⟩ := basicFormatTail_elim htail
  have hsuf : ∀ s : Str, domainOf e = s → List.isSuffixOf s e = true := by
    intro s hs
    rw [List.isSuffixOf_iff_suffix]
    have hsr : s = r := by rw [← hs, hdom]
    exact ⟨lp ++ ['@'], by rw [hsr, he]; simp⟩
  unfold isPlaceholderEmail
  simp only [Bool.or_eq_false_iff, decide_eq_false_iff_not, beq_eq_false_iff_ne, ne_eq]
  constructor
  · intro hmem
    unfold placeholderDomains at hmem
    simp only [List.mem_cons, List.not_mem_nil, or_false] at hmem
    have hchain := hfp
    unfold falsePositiveHit at hchain
    simp only [Bool.or_eq_false_iff] at hchain
    rcases hmem with h4 | h4 | h4 | h4
    · rw [hsuf _ h4] at hchain; simp at hchain
    · rw [hsuf _ h4] at hchain; simp at hchain
    · rw [hsuf _ h4] at hchain; simp at hchain
    · rw [hsuf _ h4] at hchain; simp at hchain
  · intro h4
    rw [hdom] at h4
    rw [h4] at hdot
    exact absurd hdot (by decide)

theorem valid_of_mem_extractEmailsFromText {text : Str} {su : Option Str} {e : Str}
    (h : e ∈ extractEmailsFromText text su) : isValidEmail e su = true := by
  unfold extractEmailsFromText at h
  split at h
  · simp at h
  · exact (List.mem_filter.mp (mem_of_mem_dedupKeepFirst h)).2

/-- Every pair produced by `extract_emails_from_html` comes from the text
path, the `mailto:` path, or the data-attribute path, with the respective
invariants of each path. -/
theorem mem_extractEmailsFromHtml_cases {doc : HtmlDoc} {base : Option Str}
    {p : Str × Str} (h : p ∈ extractEmailsFromHtml doc base) :
    p.1 ∈ extractEmailsFromText doc.text base ∨
      (∃ href ∈ doc.anchorHrefs, isValidEmail (mailtoAddress href) base = true ∧
        p.1 = lowerStr (mailtoAddress href)) ∨
      ∃ pr ∈ doc.attrPairs, p.1 ∈ extractEmailsFromText pr.2 base := by
  unfold extractEmailsFromHtml at h
  have h' := mem_of_mem_dedupByEmail h
  rcases List.mem_append.mp h' with h'' | hdata
  · rcases List.mem_append.mp h'' with htext | hmailto
    · left
      obtain ⟨e, he, hpe⟩ := List.mem_map.mp htext
      rw [← hpe]
      exact he
    · right; left
      obtain ⟨href, hhref, hsome⟩ := List.mem_filterMap.mp hmailto
      refine ⟨href, hhref, ?_⟩
      by_cases hpre : List.isPrefixOf "mailto:".data href = true
      · rw [if_pos hpre] at hsome
        by_cases hval : isValidEmail (mailtoAddress href) base = true
        · rw [if_pos hval] at hsome
          obtain rfl := (Option.some.injEq _ _).mp hsome |>.symm
          exact ⟨hval, rfl⟩
        · rw [if_neg hval] at hsome
          exact absurd hsome (by simp)
      · rw [if_neg hpre] at hsome
        exact absurd hsome (by simp)
  · right; right
    obtain ⟨l, hl, hpl⟩ := List.mem_flatten.mp hdata
    obtain ⟨pr, hpr, hfpr⟩ := List.mem_map.mp hl
    refine ⟨pr, hpr, ?_⟩
    by_cases hd : containsSeq "data-".data pr.1 = true
    · rw [if_pos hd] at hfpr
      rw [← hfpr] at hpl
      obtain ⟨e, he, hpe⟩ := List.mem_map.mp hpl
      rw [← hpe]
      exact he
    · rw [if_neg hd] at hfpr
      rw [← hfpr] at hpl
      simp at hpl

/-- C1 (amended).  The placeholder/localhost guarantee holds as stated for
`extract_emails_from_text` (matches are lower-cased *before* validation) and
for the text-content and data-attribute paths of `extract_emails_from_html`;
for the `mailto:` path it holds provided the address inside each `mailto:`
href is written in lower case.  (With an upper-case placeholder address in a
`mailto:` href the validation — which runs before lower-casing there — misses
the case-sensitive false-positive patterns and the lower-cased placeholder
address reaches the output; see the counterexample.) -/
theorem c1_placeholder_free_amended :
    (∀ (text : Str) (su : Option Str), ∀ e ∈ extractEmailsFromText text su,
        isPlaceholderEmail e = false) ∧
    (∀ (doc : HtmlDoc) (base : Option Str),
        (∀ href ∈ doc.anchorHrefs, lowerStr (mailtoAddress href) = mailtoAddress href) →
        ∀ p ∈ extractEmailsFromHtml doc base, isPlaceholderEmail p.1 = false) := by
  constructor
  · intro text su e he
    exact isValid_not_placeholder (valid_of_mem_extractEmailsFromText he)
  · intro doc base hlow p hp
    rcases mem_extractEmailsFromHtml_cases hp with h | ⟨href, hhref, hval, hpe⟩ | ⟨pr, hpr, h⟩
    · exact isValid_not_placeholder (valid_of_mem_extractEmailsFromText h)
    · rw [hpe, hlow href hhref]
      exact isValid_not_placeholder hval
    · exact isValid_not_placeholder (valid_of_mem_extractEmailsFromText h)

/-- C1 counterexample: the document whose only content is the link
`<a href="mailto:Contact@Example.Com">` makes `extract_emails_from_html`
output `contact@example.com` — a placeholder-domain address, present because
the address was written with upper-case letters.  This refutes the claim that
placeholder domains never appear in extractor output regardless of case. -/
theorem c1_counterexample :
    (extractEmailsFromHtml ⟨[], ["mailto:Contact@Example.Com".data], []⟩ none).map
        Prod.fst = ["contact@example.com".data] ∧
      isPlaceholderEmail "contact@example.com".data = true := by
  constructor
  · decide
  · decide

/-- Witness for `c1_placeholder_free_amended` at concrete inputs. -/
theorem c1_witness :
    isPlaceholderEmail "bob@site.org".data = false ∧
      isPlaceholderEmail "sales@shop.io".data = false := by
  constructor
  · exact c1_placeholder_free_amended.1 "mail bob@site.org now".data none
      "bob@site.org".data (by decide)
  · exact c1_placeholder_free_amended.2 ⟨[], ["mailto:sales@shop.io".data], []⟩ none
      (by decide) ("sales@shop.io".data, "mailto_link".data) (by decide)

/-- The de-duplication pass of `extract_emails_from_html` yields pairwise
distinct emails, none of which was already seen. -/
theorem dedupByEmail_nodup :
    ∀ (l : List (Str × Str)) (seen : List Str),
      ((dedupByEmail seen l).map Prod.fst).Nodup ∧
        ∀ e ∈ (dedupByEmail seen l).map Prod.fst, e ∉ seen := by
  intro l
  induction l with
  | nil => intro seen; simp [dedupByEmail]
  | cons p rest ih =>
    intro seen
    unfold dedupByEmail
    split
    · exact ih seen
    · rename_i hns
      obtain ⟨htail, hseen⟩ := ih (p.1 :: seen)
      refine ⟨?_, ?_⟩
      · simp only [List.map_cons, List.nodup_cons]
        exact ⟨fun hmem => (hseen _ hmem) (List.mem_cons_self _ _), htail⟩
      · intro e he
        rw [List.map_cons] at he
        rcases List.mem_cons.mp he with rfl | he'
        · exact hns
        · exact fun hc => (hseen e he') (List.mem_cons_of_mem _ hc)

/-- C9: running `extract_emails_from_html` twice on the same markup yields
identical output, element for element (the extraction pipeline is a pure
function of the parsed document, with no randomness or mutable extractor
state, so the two runs are literally the same value), and the output is
order-stable: the per-call de-duplication keeps exactly the first occurrence
of each email, so the emitted emails are pairwise distinct in first-seen
order. -/
theorem c9_extraction_deterministic (doc : HtmlDoc) (base : Option Str) :
    extractEmailsFromHtml doc base = extractEmailsFromHtml doc base ∧
      ((extractEmailsFromHtml doc base).map Prod.fst).Nodup := by
  refine ⟨rfl, ?_⟩
  unfold extractEmailsFromHtml
  exact (dedupByEmail_nodup _ []).1

/-! ## Result aggregation (`main.py`, `EmailScraper._create_summary`) -/

/-- One per-page scraping record, as passed between `_scrape_urls`,
`_process_social_links` and `_create_summary` (the dictionary fields the
summary consumes, plus `links`, which social pooling reads). -/
structure PageRecord where
  url : Str
  status : Str
  emails : List Str
  links : List Str
  sourceType : Str
  error : Option Str
deriving DecidableEq

/-- The summary statistics computed by `_create_summary` (output files,
timestamp and echoed settings omitted: they are I/O environment data). -/
structure Summary where
  totalUrls : Nat
  successfulScrapes : Nat
  failedScrapes : Nat
  successRate : ℚ
  totalEmails : Nat
  uniqueEmails : Nat
  sourceCount : Str → Nat

/-- `EmailScraper._create_summary`: counts by status, concatenation of all
email lists in record order, `len(set(all_emails))` for the unique count
(modelled as `dedup.length`, which equals the cardinality of the set of
elements), success rate with the zero-total guard, and per-source-type
counts. -/
def createSummary (results : List PageRecord) : Summary :=
  let allEmails := (results.map (fun r => r.emails)).flatten
  let successful := (results.filter (fun r => r.status == "success".data)).length
  { totalUrls := results.length
    successfulScrapes := successful
    failedScrapes := (results.filter (fun r => r.status == "failed".data)).length
    successRate :=
      if 0 < results.length then (successful : ℚ) / (results.length : ℚ) * 100 else 0
    totalEmails := allEmails.length
    uniqueEmails := allEmails.dedup.length
    sourceCount := fun t => (results.filter (fun r => r.sourceType == t)).length }

/-- C4: the unique-email count in the summary equals the cardinality of the
set union of the email lists of all records. -/
theorem c4_unique_emails_eq_card_union (results : List PageRecord) :
    (createSummary results).uniqueEmails =
      (results.foldr (fun (r : PageRecord) (acc : Finset Str) => r.emails.toFinset ∪ acc)
        (∅ : Finset Str)).card := by
  have h1 : (createSummary results).uniqueEmails =
      ((results.map (fun r => r.emails)).flatten).toFinset.card := by
    unfold createSummary
    simp [List.card_toFinset]
  have h2 : ∀ rs : List PageRecord,
      ((rs.map (fun r => r.emails)).flatten).toFinset =
        rs.foldr (fun (r : PageRecord) (acc : Finset Str) => r.emails.toFinset ∪ acc)
          (∅ : Finset Str) := by
    intro rs
    induction rs with
    | nil => simp
    | cons r rest ih => simp [List.toFinset_append, ih]
  rw [h1, h2]

/-! ## Static fetch with retry (`scraper.py`, `WebScraper._scrape_with_requests`
and `WebScraper.scrape_url`) -/

/-- The data a successful static fetch yields (title text, extracted links,
parsed markup, visible text). -/
structure Page where
  title : Str
  text : Str
  html : HtmlDoc
  links : List Str
deriving DecidableEq

/-- The retry loop of `_scrape_with_requests`, driven by a per-attempt network
oracle (`.ok` = HTTP 2xx page, `.error` = the `RequestException` message of
that attempt).  Mirrors `for attempt in range(max_retries)`: on failure at
`attempt == max_retries - 1` the exception is re-raised (`some (.error m)`);
on an earlier failure the loop sleeps `2 ** attempt` (collected in the second
component) and retries; falling off an empty range returns Python `None`
(`none`).  The first `Nat` argument is the remaining iteration count
`maxRetries - attempt`. -/
def scrapeAttemptsAux (fetch : Nat → Except Str Page) (maxRetries : Nat) :
    Nat → Nat → Option (Except Str Page) × List Nat
  | 0, _ => (none, [])
  | remaining + 1, attempt =>
    match fetch attempt with
    | .ok p => (some (.ok p), [])
    | .error m =>
      if attempt = maxRetries - 1 then (some (.error m), [])
      else
        let r := scrapeAttemptsAux fetch maxRetries remaining (attempt + 1)
        (r.1, 2 ^ attempt :: r.2)

/-- `WebScraper._scrape_with_requests`: run the retry loop from attempt 0. -/
def scrapeWithRequests (fetch : Nat → Except Str Page) (maxRetries : Nat) :
    Option (Except Str Page) × List Nat :=
  scrapeAttemptsAux fetch maxRetries maxRetries 0

/-- The record `WebScraper.scrape_url` returns (static mode). -/
structure ScrapeUrlResult where
  url : Str
  status : Str
  title : Str
  links : List Str
  html : Option HtmlDoc
  error : Option Str
  scrapingMethod : Str
deriving DecidableEq

/-- The `TypeError` message produced by `result.update(None)` when
`max_retries` is 0 and `_scrape_with_requests` falls off its loop returning
`None`. -/
def noneUpdateError : Str := "'NoneType' object is not iterable".data

/-- `WebScraper.scrape_url` in static mode: initialise the record with
status `failed`, run `_scrape_with_requests` inside `try/except`; a raised
exception (including the exhausted-retry re-raise) is caught and stored in
`error`, so the function always returns a record and never raises.  The
second component is the list of backoff delays slept. -/
def scrapeUrl (fetch : Nat → Except Str Page) (maxRetries : Nat) (url : Str) :
    ScrapeUrlResult × List Nat :=
  let r := scrapeWithRequests fetch maxRetries
  match r.1 with
  | some (.ok p) =>
    ({ url := url, status := "success".data, title := p.title, links := p.links,
       html := some p.html, error := none, scrapingMethod := "requests".data }, r.2)
  | some (.error m) =>
    ({ url := url, status := "failed".data, title := [], links := [],
       html := none, error := some m, scrapingMethod := "requests".data }, r.2)
  | none =>
    ({ url := url, status := "failed".data, title := [], links := [],
       html := none, error := some noneUpdateError,
       scrapingMethod := "requests".data }, r.2)

/-- C2 counterexample: with `max_retries = 3` the loop `for attempt in
range(max_retries)` makes at most 3 total attempts, so against an endpoint
failing the first three attempts (and succeeding on the fourth) the fetch
re-raises on attempt 2 and `scrape_url` ends with status `failed` — not
`Success` as the claim states. -/
theorem c2_counterexample :
    (scrapeUrl
        (fun i => if i < 3 then .error "HTTP 500".data
                  else .ok ⟨[], [], ⟨[], [], []⟩, []⟩)
        3 "http://u".data).1.status = "failed".data ∧
      (scrapeUrl
        (fun i => if i < 3 then .error "HTTP 500".data
                  else .ok ⟨[], [], ⟨[], [], []⟩, []⟩)
        3 "http://u".data).1.error = some "HTTP 500".data := by
  constructor
  · rfl
  · rfl

/-- C2 (amended).  `max_retries` bounds the *total* number of attempts, not
the retries after a first attempt: with `maxRetries = 3` an endpoint that
fails the first three attempts ends with `status=Failed` and the last error
captured, after sleeping the strictly increasing backoff delays
`[2^0, 2^1]`; a success on a later attempt is unreachable.  An endpoint that
fails the first two attempts and succeeds on the third ends with
`status=Success` after exactly 2 failed attempts, with the same strictly
increasing delays (`delay = 2^attempt`, base 1). -/
theorem c2_retry_amended :
    (∀ (fetch : Nat → Except Str Page) (url m0 m1 m2 : Str),
      fetch 0 = .error m0 → fetch 1 = .error m1 → fetch 2 = .error m2 →
        (scrapeUrl fetch 3 url).1.status = "failed".data ∧
          (scrapeUrl fetch 3 url).1.error = some m2 ∧
          (scrapeUrl fetch 3 url).2 = [2 ^ 0, 2 ^ 1] ∧ 2 ^ 0 < 2 ^ 1) ∧
    (∀ (fetch : Nat → Except Str Page) (url m0 m1 : Str) (p : Page),
      fetch 0 = .error m0 → fetch 1 = .error m1 → fetch 2 = .ok p →
        (scrapeUrl fetch 3 url).1.status = "success".data ∧
          (scrapeUrl fetch 3 url).2 = [2 ^ 0, 2 ^ 1] ∧ 2 ^ 0 < 2 ^ 1) := by
  constructor
  · intro fetch url m0 m1 m2 h0 h1 h2
    unfold scrapeUrl scrapeWithRequests scrapeAttemptsAux
    rw [h0]
    unfold scrapeAttemptsAux
    rw [h1]
    unfold scrapeAttemptsAux
    rw [h2]
    simp
  · intro fetch url m0 m1 p h0 h1 h2
    unfold scrapeUrl scrapeWithRequests scrapeAttemptsAux
    rw [h0]
    unfold scrapeAttemptsAux
    rw [h1]
    unfold scrapeAttemptsAux
    rw [h2]
    simp

/-- Witness for `c2_retry_amended` at concrete oracles. -/
theorem c2_witness :
    (scrapeUrl (fun _ => .error "boom".data) 3 "http://u".data).1.status =
        "failed".data ∧
      (scrapeUrl (fun i => if i < 2 then .error "boom".data
                           else .ok ⟨[], [], ⟨[], [], []⟩, []⟩)
          3 "http://u".data).1.status = "success".data := by
  constructor
  · exact (c2_retry_amended.1 (fun _ => .error "boom".data) "http://u".data
      "boom".data "boom".data "boom".data rfl rfl rfl).1
  · exact (c2_retry_amended.2
      (fun i => if i < 2 then .error "boom".data else .ok ⟨[], [], ⟨[], [], []⟩, []⟩)
      "http://u".data "boom".data "boom".data ⟨[], [], ⟨[], [], []⟩, []⟩
      rfl rfl rfl).1

/-! ## Pipeline layer (`main.py` orchestration over an abstract web)

At this layer `WebScraper.scrape_url` is abstracted as a total oracle
`Web : Str → Except Str Page` (`.ok` = a record with status `success`,
`.error` = a record with status `failed` carrying the error string —
`scrape_url` never raises, as proved at the scraper layer). -/

/-- The per-URL fetch oracle. -/
abbrev Web := Str → Except Str Page

/-- `EmailScraper._scrape_single_url`: fetch, and on success run the email
extractor over the page markup; on failure record the error.  (The success
extra `source_page`/`scraping_method`/`title` fields of the success record are omitted;
no claim reads them.) -/
def scrapeSingleUrl (web : Web) (url : Str) : PageRecord :=
  match web url with
  | .error m =>
    { url := url, status := "failed".data, emails := [], links := [],
      sourceType := "main".data, error := some m }
  | .ok p =>
    { url := url, status := "success".data,
      emails := (extractEmailsFromHtml p.html (some url)).map Prod.fst,
      links := p.links, sourceType := "main".data, error := none }

/-- The relevance keyword set of `_filter_relevant_pages`.  (The source holds
them in a Python set whose iteration order is arbitrary, but a URL is kept as
soon as *some* keyword matches, so the order is irrelevant.) -/
def relevantKeywords : List Str :=
  ["contact".data, "about".data, "team".data, "company".data, "business".data,
   "services".data, "products".data, "careers".data, "jobs".data, "career".data,
   "staff".data, "people".data, "leadership".data, "management".data]

/-- A URL containing some relevance keyword (checked on the lower-cased URL). -/
def isRelevantUrl (url : Str) : Bool :=
  relevantKeywords.any fun k => containsSeq k (lowerStr url)

/-- `EmailScraper._filter_relevant_pages`: keep the URLs containing a
relevance keyword, in input order. -/
def filterRelevantPages (urls : List Str) : List Str := urls.filter isRelevantUrl

/-- The breadth-first traversal of `WebScraper.get_internal_links`: pop the
queue front; skip if visited or too deep; otherwise mark visited and fetch —
on success emit the URL and (when `depth < maxDepth`) enqueue its unvisited
same-domain links, on failure emit nothing.  The `Nat` argument is step fuel
(the source terminates because the visited set is bounded by the finite link
universe; with fuel at least the number of pops the two agree). -/
def getInternalLinksAux (web : Web) (baseDomain : Str) (maxDepth : Nat) :
    Nat → List (Str × Nat) → List Str → List Str → List Str
  | 0, _, _, acc => acc.reverse
  | _ + 1, [], _, acc => acc.reverse
  | fuel + 1, (u, d) :: rest, visited, acc =>
    if u ∈ visited ∨ maxDepth < d then
      getInternalLinksAux web baseDomain maxDepth fuel rest visited acc
    else
      match web u with
      | .ok p =>
        let newLinks :=
          if d < maxDepth then
            (p.links.filter fun l =>
              urlNetloc l == baseDomain && decide (l ∉ u :: visited)).map
              fun l => (l, d + 1)
          else []
        getInternalLinksAux web baseDomain maxDepth fuel (rest ++ newLinks)
          (u :: visited) (u :: acc)
      | .error _ =>
        getInternalLinksAux web baseDomain maxDepth fuel rest (u :: visited) acc

/-- `WebScraper.get_internal_links(url, max_depth)`. -/
def getInternalLinks (web : Web) (url : Str) (maxDepth : Nat) (fuel : Nat) :
    List Str :=
  getInternalLinksAux web (urlNetloc url) maxDepth fuel [(url, 0)] [] []

/-- `EmailScraper._scrape_internal_pages`: discover internal links at
`max_depth=1`, filter for relevant pages, truncate to `max_internal_pages`,
scrape each and tag it with source type `internal`. -/
def scrapeInternalPages (web : Web) (baseUrl : Str) (maxInternalPages : Nat)
    (fuel : Nat) : List PageRecord :=
  let internalLinks := getInternalLinks web baseUrl 1 fuel
  let pagesToScrape := (filterRelevantPages internalLinks).take maxInternalPages
  pagesToScrape.map fun pu =>
    { scrapeSingleUrl web pu with sourceType := "internal".data }

/-- `EmailScraper._scrape_urls`: for each URL append its main record and, when
the main fetch succeeded, the internal-page records.  (The surrounding
`try/except` that would append a failed record is unreachable here:
`_scrape_single_url` catches its own exceptions and always returns a
record.) -/
def scrapeUrls (web : Web) (maxInternalPages fuel : Nat) (urls : List Str) :
    List PageRecord :=
  (urls.map fun u =>
    let m := scrapeSingleUrl web u
    m :: (if m.status == "success".data
          then scrapeInternalPages web u maxInternalPages fuel
          else [])).flatten

/-- In the all-attempts-fail regime the retry loop re-raises the last
error of the last attempt. -/
theorem scrapeAttemptsAux_all_fail (fetch : Nat → Except Str Page)
    (maxRetries : Nat) (msgs : Nat → Str) :
    ∀ remaining attempt, remaining + attempt = maxRetries → 1 ≤ remaining →
      (∀ i, attempt ≤ i → i < maxRetries → fetch i = .error (msgs i)) →
      (scrapeAttemptsAux fetch maxRetries remaining attempt).1 =
        some (.error (msgs (maxRetries - 1))) := by
  intro remaining
  induction remaining with
  | zero => intro attempt _ h1; omega
  | succ rem ih =>
    intro attempt hsum _ hall
    have hlt : attempt < maxRetries := by omega
    unfold scrapeAttemptsAux
    rw [hall attempt le_rfl hlt]
    dsimp only
    by_cases hlast : attempt = maxRetries - 1
    · rw [if_pos hlast, hlast]
    · rw [if_neg hlast]
      dsimp only
      have h1 : 1 ≤ rem := by omega
      exact ih (attempt + 1) (by omega) h1 fun i hi hi' => hall i (by omega) hi'

/-- C3: fetch failures stay inside their boundaries.  (1) At the scraper
layer, when every attempt fails (retries exhausted), `scrape_url` returns a
record — it does not raise — with status `failed` and the last underlying
error string captured in `error`.  (2) At the batch layer, every input URL
contributes a record with its URL to the result list (its `source_type` is
`main`), so the failure of one URL never prevents the remaining URLs from being
processed. -/
theorem c3_failures_contained :
    (∀ (fetch : Nat → Except Str Page) (maxRetries : Nat) (url : Str)
        (msgs : Nat → Str), 1 ≤ maxRetries →
        (∀ i, i < maxRetries → fetch i = .error (msgs i)) →
        (scrapeUrl fetch maxRetries url).1.status = "failed".data ∧
          (scrapeUrl fetch maxRetries url).1.error =
            some (msgs (maxRetries - 1))) ∧
    (∀ (web : Web) (maxInternalPages fuel : Nat) (urls : List Str),
        ∀ u ∈ urls, ∃ r ∈ scrapeUrls web maxInternalPages fuel urls,
          r.url = u ∧ r.sourceType = "main".data) := by
  constructor
  · intro fetch maxRetries url msgs hge hall
    have key := scrapeAttemptsAux_all_fail fetch maxRetries msgs maxRetries 0
      (by omega) hge (fun i _ hi => hall i hi)
    unfold scrapeUrl scrapeWithRequests
    dsimp only
    rw [key]
    exact ⟨rfl, rfl⟩
  · intro web maxInternalPages fuel urls u hu
    refine ⟨scrapeSingleUrl web u, ?_, ?_, ?_⟩
    · unfold scrapeUrls
      refine List.mem_flatten.mpr ⟨_, List.mem_map.mpr ⟨u, hu, rfl⟩, ?_⟩
      exact List.mem_cons_self _ _
    · unfold scrapeSingleUrl
      cases web u <;> rfl
    · unfold scrapeSingleUrl
      cases web u <;> rfl

/-- Witness for `c3_failures_contained` at concrete inputs. -/
theorem c3_witness :
    (scrapeUrl (fun _ => .error "conn reset".data) 2 "http://a".data).1.status =
        "failed".data ∧
      ∃ r ∈ scrapeUrls (fun _ => .error "down".data) 5 10
          ["http://a".data, "http://b".data],
        r.url = "http://b".data ∧ r.sourceType = "main".data := by
  constructor
  · exact (c3_failures_contained.1 (fun _ => .error "conn reset".data) 2
      "http://a".data (fun _ => "conn reset".data) (by omega)
      (fun i _ => rfl)).1
  · exact c3_failures_contained.2 (fun _ => .error "down".data) 5 10
      ["http://a".data, "http://b".data] "http://b".data (by decide)

theorem scrapeSingleUrl_url (web : Web) (u : Str) :
    (scrapeSingleUrl web u).url = u := by
  unfold scrapeSingleUrl
  cases web u <;> rfl

/-- C7: internal-page exploration scrapes exactly the first `maxPages`
relevant URLs of the discovery-ordered list returned by the link explorer:
the result has at most `maxPages` records, every scraped URL contains a
relevance keyword, the scraped URLs are the first `maxPages` elements of the
relevance-filtered discovery list, and they form a subsequence of the
discovery list (discovery order preserved).  This holds for every web, seed
and bound — in particular for a seed whose same-domain links include 5
relevant and 2 unrelated pages with `maxPages = 3`. -/
theorem c7_internal_page_selection (web : Web) (seed : Str)
    (maxPages fuel : Nat) :
    (scrapeInternalPages web seed maxPages fuel).length ≤ maxPages ∧
      (∀ r ∈ scrapeInternalPages web seed maxPages fuel,
        isRelevantUrl r.url = true ∧ r.sourceType = "internal".data) ∧
      (scrapeInternalPages web seed maxPages fuel).map (fun r => r.url) =
        ((getInternalLinks web seed 1 fuel).filter isRelevantUrl).take maxPages ∧
      ((scrapeInternalPages web seed maxPages fuel).map (fun r => r.url)).Sublist
        (getInternalLinks web seed 1 fuel) := by
  have hmapurl : (scrapeInternalPages web seed maxPages fuel).map (fun r => r.url) =
      ((getInternalLinks web seed 1 fuel).filter isRelevantUrl).take maxPages := by
    unfold scrapeInternalPages filterRelevantPages
    rw [List.map_map]
    have hcong : ∀ x ∈ ((getInternalLinks web seed 1 fuel).filter isRelevantUrl).take
        maxPages,
        ((fun r => PageRecord.url r) ∘ fun pu =>
          { scrapeSingleUrl web pu with sourceType := "internal".data }) x = id x := by
      intro x _
      simp only [Function.comp_apply, id_eq]
      exact scrapeSingleUrl_url web x
    rw [List.map_congr_left hcong, List.map_id]
  refine ⟨?_, ?_, hmapurl, ?_⟩
  · calc (scrapeInternalPages web seed maxPages fuel).length
        = ((scrapeInternalPages web seed maxPages fuel).map (fun r => r.url)).length :=
          (List.length_map _ _).symm
      _ = (((getInternalLinks web seed 1 fuel).filter isRelevantUrl).take
            maxPages).length := by rw [hmapurl]
      _ ≤ maxPages := List.length_take_le _ _
  · intro r hr
    unfold scrapeInternalPages filterRelevantPages at hr
    obtain ⟨pu, hpu, rfl⟩ := List.mem_map.mp hr
    refine ⟨?_, rfl⟩
    have hpu' : pu ∈ (getInternalLinks web seed 1 fuel).filter isRelevantUrl :=
      (List.take_sublist _ _).subset hpu
    have hurl : ({ scrapeSingleUrl web pu with
        sourceType := "internal".data } : PageRecord).url = pu :=
      scrapeSingleUrl_url web pu
    rw [hurl]
    exact (List.mem_filter.mp hpu').2
  · rw [hmapurl]
    exact (List.take_sublist _ _).trans (List.filter_sublist _)

/-! ## Social link classification (`social_scraper.py`,
`SocialScraper.detect_social_links`) -/

/-- Whether the remainder after a platform literal satisfies `([^/\s]+)`:
at least one following character that is neither `/` nor whitespace. -/
def afterPatOk : Str → Bool
  | [] => false
  | c :: _ => !(decide (c = '/') || isSpaceChar c)

/-- `re.search` of a platform pattern `<literal>([^/\s]+)`: some occurrence of
the literal followed by a non-`/`, non-whitespace character. -/
def patMatches (pat : Str) : Str → Bool
  | [] => false
  | c :: rest =>
    (pat.isPrefixOf (c :: rest) && afterPatOk ((c :: rest).drop pat.length)) ||
      patMatches pat rest

/-- The ordered platform table of `SocialScraper.__init__`
(`self.social_patterns`), with each regex reduced to its literal part (the
trailing `([^/\s]+)` group is handled by `patMatches`). -/
def socialPlatforms : List (Str × List Str) :=
  [("linkedin".data,
    ["linkedin.com/company/".data, "linkedin.com/in/".data,
     "linkedin.com/showcase/".data]),
   ("instagram".data, ["instagram.com/".data, "instagr.am/".data]),
   ("facebook".data, ["facebook.com/".data, "fb.com/".data]),
   ("twitter".data, ["twitter.com/".data, "x.com/".data]),
   ("youtube".data,
    ["youtube.com/channel/".data, "youtube.com/c/".data,
     "youtube.com/user/".data])]

/-- `SocialScraper.detect_social_links`.  The source iterates the links and,
for each platform, appends the (original-case) link to the list of that platform
as soon as one of the patterns of the platform matches the lower-cased link — the
inner `break` leaves only the *pattern* loop, not the platform loop, so the
link is tested against every platform.  Platform-wise this is exactly a
filter of the links by "some pattern of this platform matches". -/
def detectSocialLinks (links : List Str) : List (Str × List Str) :=
  socialPlatforms.map fun p =>
    (p.1, links.filter fun l => p.2.any fun pat => patMatches pat (lowerStr l))

/-- C5 counterexample: the single link
`https://linkedin.com/company/instagram.com/x` matches both a LinkedIn
pattern and an Instagram pattern and is attributed to **both** platforms —
the `break` in the source only exits the per-platform pattern loop, so
"exactly one platform, first match wins" is false. -/
theorem c5_counterexample :
    (detectSocialLinks ["https://linkedin.com/company/instagram.com/x".data]).countP
        (fun e => decide ("https://linkedin.com/company/instagram.com/x".data ∈ e.2))
      = 2 := by
  decide

/-- C5 (amended).  A link is attributed to *every* platform one of whose
patterns matches it (the per-platform `break` merely prevents a double append
within one platform), so a link can appear under several platforms; and a
link none of whose platform patterns match appears in the list of no platform of
the returned mapping.  Precisely: every entry of the mapping is the entry of
a platform of the table, whose list holds exactly the input links (in input
order) matched by some pattern of that platform. -/
theorem c5_classification_amended :
    (∀ (links : List Str), ∀ e ∈ detectSocialLinks links,
      ∃ pp ∈ socialPlatforms, pp.1 = e.1 ∧
        ∀ l, l ∈ e.2 ↔ l ∈ links ∧
          pp.2.any (fun pat => patMatches pat (lowerStr l)) = true) ∧
    (∀ (links : List Str) (l : Str),
      (∀ pp ∈ socialPlatforms,
        pp.2.all (fun pat => !patMatches pat (lowerStr l)) = true) →
      ∀ e ∈ detectSocialLinks links, l ∉ e.2) := by
  constructor
  · intro links e he
    obtain ⟨pp, hpp, rfl⟩ := List.mem_map.mp he
    refine ⟨pp, hpp, rfl, fun l => ?_⟩
    constructor
    · intro hl
      exact List.mem_filter.mp hl
    · intro ⟨h1, h2⟩
      exact List.mem_filter.mpr ⟨h1, h2⟩
  · intro links l hnone e he hl
    obtain ⟨pp, hpp, rfl⟩ := List.mem_map.mp he
    have hmatch := (List.mem_filter.mp hl).2
    obtain ⟨pat, hpat, hm⟩ := List.any_eq_true.mp hmatch
    have := List.all_eq_true.mp (hnone pp hpp) pat hpat
    rw [hm] at this
    exact absurd this (by decide)

/-- Witness for `c5_classification_amended` at concrete inputs, using the example given in the spec: `https://www.linkedin.com/company/acme` classifies as LinkedIn, and
`https://acme.com/contact` (matching no platform) lands in no list. -/
theorem c5_witness :
    (∃ pp ∈ socialPlatforms,
      pp.1 = "linkedin".data ∧
        ∀ l, l ∈ ["https://www.linkedin.com/company/acme".data] ↔
          l ∈ ["https://www.linkedin.com/company/acme".data] ∧
            pp.2.any (fun pat => patMatches pat (lowerStr l)) = true) ∧
      "https://acme.com/contact".data ∉
        (("linkedin".data, ([] : List Str)) : Str × List Str).2 := by
  constructor
  · exact c5_classification_amended.1
      ["https://www.linkedin.com/company/acme".data]
      ("linkedin".data, ["https://www.linkedin.com/company/acme".data])
      (by decide)
  · exact c5_classification_amended.2 ["https://acme.com/contact".data]
      "https://acme.com/contact".data (by decide) ("linkedin".data, [])
      (by decide)

/-! ## Proxy rotation (`proxy_handler.py`, `ProxyHandler`)

Response times are modelled exactly over `ℚ` (the source uses floats; the
incremental-mean formula is the object of interest, not rounding). -/

/-- The per-proxy statistics dictionary entry created by `add_proxies`. -/
structure ProxyStats where
  successCount : Nat
  failCount : Nat
  lastUsed : Option ℚ
  avgResponseTime : ℚ
deriving DecidableEq

/-- The fresh statistics of a newly added proxy. -/
def initialStats : ProxyStats :=
  { successCount := 0, failCount := 0, lastUsed := none, avgResponseTime := 0 }

/-- The mutable state of a `ProxyHandler`: the proxy list, the round-robin
cursor, and the stats dictionary (an association list with unique keys,
mirroring the Python dict). -/
structure ProxyHandlerState where
  proxies : List Str
  currentIndex : Nat
  proxyStats : List (Str × ProxyStats)
deriving DecidableEq

/-- Python dict assignment `d[k] = v`: overwrite the existing entry, else
append. -/
def setStat (stats : List (Str × ProxyStats)) (k : Str) (v : ProxyStats) :
    List (Str × ProxyStats) :=
  if stats.any (fun e => e.1 == k) then
    stats.map fun e => if e.1 == k then (k, v) else e
  else stats ++ [(k, v)]

/-- Python dict lookup `d.get(k)` / `d[k]` (a `none` here is where the source
would raise `KeyError`). -/
def lookupStat (stats : List (Str × ProxyStats)) (k : Str) : Option ProxyStats :=
  (stats.find? fun e => e.1 == k).map fun e => e.2

/-- `ProxyHandler._validate_proxy_format`: scheme `http`/`https` and a
non-empty netloc (simplified `urlparse` as above). -/
def validateProxyFormat (proxy : Str) : Bool :=
  (List.isPrefixOf "http://".data proxy || List.isPrefixOf "https://".data proxy) &&
    !(urlNetloc proxy).isEmpty

/-- `ProxyHandler.add_proxies`: append each format-valid proxy to the list and
give it fresh statistics; invalid entries touch neither structure. -/
def addProxies (st : ProxyHandlerState) (proxyList : List Str) :
    ProxyHandlerState :=
  proxyList.foldl
    (fun s proxy =>
      if validateProxyFormat proxy then
        { s with proxies := s.proxies ++ [proxy],
                 proxyStats := setStat s.proxyStats proxy initialStats }
      else s)
    st

/-- `ProxyHandler.remove_proxy`: `list.remove` deletes the *first* occurrence
from the proxy list, `del` deletes the whole stats entry. -/
def removeProxy (st : ProxyHandlerState) (proxy : Str) : ProxyHandlerState :=
  if proxy ∈ st.proxies then
    { st with proxies := st.proxies.erase proxy,
              proxyStats := st.proxyStats.filter fun e => !(e.1 == proxy) }
  else st

/-- `ProxyHandler.__init__` from an explicit proxy list (the proxy-file and
free-proxy sources are I/O collaborators feeding the same `add_proxies`). -/
def mkProxyHandler (proxyList : Option (List Str)) : ProxyHandlerState :=
  match proxyList with
  | some l => addProxies ⟨[], 0, []⟩ l
  | none => ⟨[], 0, []⟩

/-- The `best_performance` sort key `(success - fail, -avg)`, compared so that
the stable descending Python sort puts the key-maximal proxy (earliest on ties)
first. -/
def bpKey (st : ProxyHandlerState) (p : Str) : Int × ℚ :=
  let s := (lookupStat st.proxyStats p).getD initialStats
  ((s.successCount : Int) - (s.failCount : Int), -s.avgResponseTime)

/-- Strict lexicographic comparison of `best_performance` keys. -/
def bpKeyLt (a b : Int × ℚ) : Bool :=
  decide (a.1 < b.1) || (decide (a.1 = b.1) && decide (a.2 < b.2))

/-- `sorted(..., reverse=True)[0]` for the `best_performance` strategy: the
first proxy (in list order) with the maximal key — a later proxy replaces the
champion only when its key is strictly greater.  (A missing stats entry would
raise `KeyError` in the source; `getD` in `bpKey` marks that unreachable-
under-invariant case, see C10.) -/
def bestPerformanceChoice (st : ProxyHandlerState) : Option Str :=
  st.proxies.foldl
    (fun acc p =>
      match acc with
      | none => some p
      | some q => if bpKeyLt (bpKey st q) (bpKey st p) then some p else some q)
    none

/-- `ProxyHandler.get_next_proxy`: empty pool returns `None` for every
strategy; `round_robin` indexes at the cursor and advances it modulo the pool
size; `random` picks an arbitrary element (the `random.choice` draw is the
`rand` parameter); `best_performance` as above; an unknown strategy returns
the first proxy. -/
def getNextProxy (st : ProxyHandlerState) (strategy : Str) (rand : Nat) :
    Option Str × ProxyHandlerState :=
  if st.proxies.isEmpty then (none, st)
  else if strategy == "round_robin".data then
    (st.proxies.get? st.currentIndex,
     { st with currentIndex := (st.currentIndex + 1) % st.proxies.length })
  else if strategy == "random".data then
    (st.proxies.get? (rand % st.proxies.length), st)
  else if strategy == "best_performance".data then
    (bestPerformanceChoice st, st)
  else (st.proxies.get? 0, st)

/-- Iterated calls of `get_next_proxy`, collecting the returned proxies. -/
def getNextProxyTrace (st : ProxyHandlerState) (strategy : Str) (rand : Nat) :
    Nat → List (Option Str)
  | 0 => []
  | n + 1 =>
    let r := getNextProxy st strategy rand
    r.1 :: getNextProxyTrace r.2 strategy rand n

/-- C6: over the pool `[P1, P2, P3]` six consecutive `round_robin` calls
return `P1, P2, P3, P1, P2, P3` (the cursor wraps), and the empty pool
returns `None` under every strategy (the guard precedes the strategy
dispatch). -/
theorem c6_round_robin_cycle :
    getNextProxyTrace
        (mkProxyHandler (some ["http://p1:80".data, "http://p2:80".data,
          "http://p3:80".data])) "round_robin".data 0 6 =
      [some "http://p1:80".data, some "http://p2:80".data,
        some "http://p3:80".data, some "http://p1:80".data,
        some "http://p2:80".data, some "http://p3:80".data] ∧
    ∀ (strategy : Str) (rand : Nat),
      (getNextProxy (mkProxyHandler none) strategy rand).1 = none := by
  constructor
  · decide
  · intro strategy rand
    unfold getNextProxy mkProxyHandler
    simp

/-- After replacing the entries keyed `k`, a key-`k` lookup finds `(k, v)`
(provided some entry had key `k`). -/
theorem find?_map_replace_self (k : Str) (v : ProxyStats) :
    ∀ es : List (Str × ProxyStats), es.any (fun e => e.1 == k) = true →
      (es.map fun e => if e.1 == k then (k, v) else e).find?
        (fun e => e.1 == k) = some (k, v) := by
  intro es
  induction es with
  | nil => intro h; simp at h
  | cons e es ih =>
    intro h
    by_cases he : (e.1 == k) = true
    · simp only [List.map_cons, if_pos he]
      rw [List.find?_cons_of_pos (p := fun e => (Prod.fst e) == k) _ (by simp)]
    · simp only [List.map_cons, if_neg he]
      rw [List.find?_cons_of_neg (p := fun e => (Prod.fst e) == k) _ (by simpa using he)]
      apply ih
      obtain ⟨x, hx, hxk⟩ := List.any_eq_true.mp h
      rcases List.mem_cons.mp hx with rfl | hx'
      · exact absurd hxk he
      · exact List.any_eq_true.mpr ⟨x, hx', hxk⟩

/-- Writing a stats entry makes it the entry subsequently read back. -/
theorem lookupStat_setStat_self (stats : List (Str × ProxyStats)) (k : Str)
    (v : ProxyStats) : lookupStat (setStat stats k v) k = some v := by
  unfold setStat
  by_cases hany : ((stats.any fun e => e.1 == k) = true)
  · rw [if_pos hany]
    unfold lookupStat
    rw [find?_map_replace_self k v stats hany]
    rfl
  · rw [if_neg hany]
    unfold lookupStat
    rw [List.find?_append]
    have hnone : (stats.find? fun e => e.1 == k) = none := by
      rw [List.find?_eq_none]
      intro x hx hxk
      exact hany (List.any_eq_true.mpr ⟨x, hx, hxk⟩)
    rw [hnone, List.find?_cons_of_pos (p := fun e => (Prod.fst e) == k) _ (by simp)]
    rfl

/-- Replacing the entries keyed `k` leaves the lookup of any other key readable. -/
theorem find?_map_replace_isSome (k q : Str) (v : ProxyStats) (hqk : q ≠ k) :
    ∀ es : List (Str × ProxyStats),
      (Option.map (fun e => e.2) (es.find? fun e => e.1 == q)).isSome = true →
      (Option.map (fun e => e.2)
        ((es.map fun e => if e.1 == k then (k, v) else e).find?
          fun e => e.1 == q)).isSome = true := by
  intro es
  induction es with
  | nil => intro h; simp at h
  | cons e es ih =>
    intro h
    by_cases heq : (e.1 == q) = true
    · have hek : ¬((e.1 == k) = true) := by
        simp only [beq_iff_eq] at heq ⊢
        rw [heq]
        exact fun hc => hqk hc
      simp only [List.map_cons, if_neg hek]
      rw [List.find?_cons_of_pos (p := fun e => (Prod.fst e) == q) _ heq]
      rfl
    · rw [List.find?_cons_of_neg (p := fun e => (Prod.fst e) == q) _ (by simpa using heq)] at h
      simp only [List.map_cons]
      by_cases hek : (e.1 == k) = true
      · rw [if_pos hek]
        rw [List.find?_cons_of_neg (p := fun e => (Prod.fst e) == q) _
          (by simp only [beq_iff_eq]; exact fun hc => hqk hc.symm)]
        exact ih h
      · rw [if_neg hek]
        rw [List.find?_cons_of_neg (p := fun e => (Prod.fst e) == q) _ (by simpa using heq)]
        exact ih h

/-- Writing the stats entry of one key leaves the entry of every other key readable. -/
theorem lookupStat_setStat_isSome (stats : List (Str × ProxyStats))
    (k q : Str) (v : ProxyStats) (h : (lookupStat stats q).isSome) :
    (lookupStat (setStat stats k v) q).isSome := by
  by_cases hqk : q = k
  · rw [hqk, lookupStat_setStat_self]; rfl
  · unfold setStat
    by_cases hany : ((stats.any fun e => e.1 == k) = true)
    · rw [if_pos hany]
      unfold lookupStat at h ⊢
      exact find?_map_replace_isSome k q v hqk stats h
    · rw [if_neg hany]
      unfold lookupStat at h ⊢
      rw [List.find?_append]
      cases hf : stats.find? fun e => e.1 == q with
      | none => rw [hf] at h; simp at h
      | some e => rfl

/-- The probe outcome of the single canary fetch of `test_proxy`: an HTTP response
with a status code and measured response time, or a raised exception. -/
inductive ProbeOutcome where
  | response (statusCode : Nat) (responseTime : ℚ)
  | exn (msg : Str)
deriving DecidableEq

/-- `ProxyHandler.test_proxy`: a 200 response increments the success count,
stamps `last_used = now` and folds the measured time into the running average
with `new_avg = (old_avg * (n - 1) + t) / n` where `n` is the *incremented*
success count; a non-200 response or an exception increments only the fail
count.  (A proxy without a stats entry would raise `KeyError` in the source;
`getD` marks that unreachable-under-invariant case, see C10.) -/
def testProxy (st : ProxyHandlerState) (proxy : Str) (outcome : ProbeOutcome)
    (now : ℚ) : Bool × ProxyHandlerState :=
  match outcome with
  | .response code t =>
    if code = 200 then
      let s := (lookupStat st.proxyStats proxy).getD initialStats
      let n := s.successCount + 1
      let s' : ProxyStats :=
        { successCount := n, failCount := s.failCount, lastUsed := some now,
          avgResponseTime := (s.avgResponseTime * ((n : ℚ) - 1) + t) / (n : ℚ) }
      (true, { st with proxyStats := setStat st.proxyStats proxy s' })
    else
      let s := (lookupStat st.proxyStats proxy).getD initialStats
      (false,
        { st with proxyStats :=
            setStat st.proxyStats proxy ({ s with failCount := s.failCount + 1 }) })
  | .exn _ =>
    let s := (lookupStat st.proxyStats proxy).getD initialStats
    (false,
      { st with proxyStats :=
          setStat st.proxyStats proxy ({ s with failCount := s.failCount + 1 }) })

/-- C8: for a proxy with stats entry `s`, a failed probe (non-200 response or
exception) updates the entry to `s` with only the fail count incremented —
success count, average response time and last-used stamp untouched — while a
successful probe increments the success count, stamps `last_used`, and sets
the average by the incremental mean `(old_avg * (n-1) + t) / n` with `n` the
new success count. -/
theorem c8_probe_stats_update (st : ProxyHandlerState) (proxy : Str)
    (s : ProxyStats) (hs : lookupStat st.proxyStats proxy = some s) :
    (∀ (code : Nat) (t now : ℚ), code ≠ 200 →
      lookupStat (testProxy st proxy (.response code t) now).2.proxyStats proxy =
        some ({ s with failCount := s.failCount + 1 })) ∧
    (∀ (msg : Str) (now : ℚ),
      lookupStat (testProxy st proxy (.exn msg) now).2.proxyStats proxy =
        some ({ s with failCount := s.failCount + 1 })) ∧
    (∀ t now : ℚ,
      lookupStat (testProxy st proxy (.response 200 t) now).2.proxyStats proxy =
        some ({ successCount := s.successCount + 1, failCount := s.failCount,
                lastUsed := some now,
                avgResponseTime :=
                  (s.avgResponseTime * (((s.successCount + 1 : Nat) : ℚ) - 1) + t) /
                    ((s.successCount + 1 : Nat) : ℚ) })) := by
  refine ⟨?_, ?_, ?_⟩
  · intro code t now hcode
    unfold testProxy
    dsimp only
    rw [if_neg hcode, hs]
    simp only [Option.getD_some]
    exact lookupStat_setStat_self _ _ _
  · intro msg now
    unfold testProxy
    dsimp only
    rw [hs]
    simp only [Option.getD_some]
    exact lookupStat_setStat_self _ _ _
  · intro t now
    unfold testProxy
    dsimp only
    rw [if_pos rfl, hs]
    simp only [Option.getD_some]
    exact lookupStat_setStat_self _ _ _

/-- Witness for `c8_probe_stats_update` at a concrete one-proxy state. -/
theorem c8_witness :
    lookupStat
        (testProxy ⟨["http://p:80".data], 0,
            [("http://p:80".data, initialStats)]⟩
          "http://p:80".data (.response 500 7) 3).2.proxyStats
        "http://p:80".data =
      some ({ initialStats with failCount := 1 }) ∧
    lookupStat
        (testProxy ⟨["http://p:80".data], 0,
            [("http://p:80".data, initialStats)]⟩
          "http://p:80".data (.response 200 7) 3).2.proxyStats
        "http://p:80".data =
      some ({ successCount := 1, failCount := 0, lastUsed := some 3,
              avgResponseTime := (initialStats.avgResponseTime * (((0 + 1 : Nat) : ℚ) - 1) + 7) /
                ((0 + 1 : Nat) : ℚ) }) := by
  constructor
  · exact (c8_probe_stats_update ⟨["http://p:80".data], 0,
      [("http://p:80".data, initialStats)]⟩ "http://p:80".data initialStats
      rfl).1 500 7 3 (by omega)
  · exact (c8_probe_stats_update ⟨["http://p:80".data], 0,
      [("http://p:80".data, initialStats)]⟩ "http://p:80".data initialStats
      rfl).2.2 7 3

/-- The C10 invariant: every pool member has a statistics entry. -/
def statsInvariant (st : ProxyHandlerState) : Prop :=
  ∀ p ∈ st.proxies, (lookupStat st.proxyStats p).isSome = true

/-- Deleting the entries of one key leaves the entry of every other key readable. -/
theorem lookupStat_filter_ne (p q : Str) (hqp : q ≠ p) :
    ∀ stats : List (Str × ProxyStats), (lookupStat stats q).isSome = true →
      (lookupStat (stats.filter fun e => !(e.1 == p)) q).isSome = true := by
  intro stats
  induction stats with
  | nil => intro h; simp [lookupStat] at h
  | cons e es ih =>
    intro h
    unfold lookupStat at h ⊢
    by_cases heq : (e.1 == q) = true
    · have hep : (!(e.1 == p)) = true := by
        simp only [beq_iff_eq] at heq ⊢
        simp only [Bool.not_eq_true', beq_eq_false_iff_ne, ne_eq]
        rw [heq]
        exact fun hc => hqp hc
      rw [List.filter_cons_of_pos (p := fun e => !((Prod.fst e) == p)) hep]
      rw [List.find?_cons_of_pos (p := fun e => (Prod.fst e) == q) _ heq]
      rfl
    · rw [List.find?_cons_of_neg (p := fun e => (Prod.fst e) == q) _
        (by simpa using heq)] at h
      by_cases hkeep : (!(e.1 == p)) = true
      · rw [List.filter_cons_of_pos (p := fun e => !((Prod.fst e) == p)) hkeep]
        rw [List.find?_cons_of_neg (p := fun e => (Prod.fst e) == q) _
          (by simpa using heq)]
        exact ih h
      · rw [List.filter_cons_of_neg (p := fun e => !((Prod.fst e) == p)) hkeep]
        exact ih h

/-- One `add_proxies` step preserves the invariant. -/
theorem statsInvariant_addStep (st : ProxyHandlerState) (x : Str)
    (h : statsInvariant st) :
    statsInvariant
      (if validateProxyFormat x then
        { st with proxies := st.proxies ++ [x],
                  proxyStats := setStat st.proxyStats x initialStats }
      else st) := by
  split
  · intro q hq
    rcases List.mem_append.mp hq with hq | hq
    · exact lookupStat_setStat_isSome _ _ _ _ (h q hq)
    · rcases List.mem_singleton.mp hq with rfl
      rw [lookupStat_setStat_self]
      rfl
  · exact h

/-- C10 counterexample: adding the same (format-valid) address twice and then
removing it once leaves the address in the proxy list (only the first list
occurrence is removed) while its whole stats entry is deleted — the invariant
`proxies ⊆ domain(proxy_stats)` is *not* preserved by `remove_proxy` in the
presence of duplicates, and a subsequent `best_performance` or `test_proxy`
lookup of the surviving member would raise `KeyError`. -/
theorem c10_counterexample :
    "http://p:80".data ∈
        (removeProxy
          (mkProxyHandler (some ["http://p:80".data, "http://p:80".data]))
          "http://p:80".data).proxies ∧
      lookupStat
          (removeProxy
            (mkProxyHandler (some ["http://p:80".data, "http://p:80".data]))
            "http://p:80".data).proxyStats "http://p:80".data = none := by
  constructor
  · decide
  · decide

/-- C10 (amended).  The invariant `proxies ⊆ domain(proxy_stats)` holds after
construction and is preserved by `add_proxies` unconditionally (each valid
address is appended to the list *and* written to the stats dict); it is
preserved by `remove_proxy` provided the proxy list is duplicate-free — with
a duplicated address, `remove_proxy` deletes only the first list occurrence
but the whole stats entry (see the counterexample). -/
theorem c10_stats_invariant_amended :
    (∀ l : List Str, statsInvariant (mkProxyHandler (some l))) ∧
    (∀ (st : ProxyHandlerState) (l : List Str),
      statsInvariant st → statsInvariant (addProxies st l)) ∧
    (∀ (st : ProxyHandlerState) (p : Str),
      statsInvariant st → st.proxies.Nodup → statsInvariant (removeProxy st p)) := by
  have hadd : ∀ (l : List Str) (st : ProxyHandlerState),
      statsInvariant st → statsInvariant (addProxies st l) := by
    intro l
    induction l with
    | nil => intro st h; exact h
    | cons x xs ih =>
      intro st h
      unfold addProxies
      rw [List.foldl_cons]
      exact ih _ (statsInvariant_addStep st x h)
  refine ⟨?_, fun st l => hadd l st, ?_⟩
  · intro l
    unfold mkProxyHandler
    exact hadd l _ (by intro q hq; simp at hq)
  · intro st p h hnd
    unfold removeProxy
    split
    · intro q hq
      have hq' := (List.Nodup.mem_erase_iff hnd).mp hq
      exact lookupStat_filter_ne p q hq'.1 _ (h q hq'.2)
    · exact h

/-- Witness for `c10_stats_invariant_amended` at a concrete duplicate-free
pool. -/
theorem c10_witness :
    statsInvariant
      (removeProxy
        (mkProxyHandler (some ["http://p1:80".data, "http://p2:80".data]))
        "http://p1:80".data) :=
  c10_stats_invariant_amended.2.2
    (mkProxyHandler (some ["http://p1:80".data, "http://p2:80".data]))
    "http://p1:80".data
    (c10_stats_invariant_amended.1 ["http://p1:80".data, "http://p2:80".data])
    (by decide)

end EmailScraping
